import Mathlib

/-!
Shallow embedding of the scroll4me session/extraction/analysis core:
cookie storage (internal/auth/cookies.go), the scroll-collect loop and
metric parser (internal/scraper/scraper.go), concurrent batched analysis
(internal/analyzer/analyzer.go) and the relevance filter
(internal/app/app.go).  time.Time values are modelled as Unix seconds
(Int); float64 relevance scores and ParseFloat values are modelled as ℚ.
-/

/-- A session cookie, restricted to the fields the repository reads:
Name, Value, Domain and Expires (Unix seconds, as produced by
time.Unix(int64(c.Expires), 0) inside CookieStore.Save). -/
structure Cookie where
  name : String
  value : String
  domain : String
  expires : Int
deriving Repr, DecidableEq

/-- Go's zero time.Time (January 1, year 1 UTC) as Unix seconds.  Save's
earliestExpiry variable starts at the zero value and IsZero() compares
against it. -/
def goZeroTime : Int := -62135596800

/-- StoredCookies as persisted by CookieStore.Save (cookies.go). -/
structure StoredCookies where
  cookies : List Cookie
  capturedAt : Int
  expiresAt : Int
deriving Repr, DecidableEq

/-- The earliest-expiration fold in CookieStore.Save (cookies.go lines
47-56): over cookies named auth_token or ct0, keep the smallest Expires,
starting from (and testing against) the zero time. -/
def earliestAuthExpiry (cookies : List Cookie) : Int :=
  cookies.foldl
    (fun earliest c =>
      if c.name = "auth_token" ∨ c.name = "ct0" then
        if earliest = goZeroTime ∨ c.expires < earliest then c.expires else earliest
      else earliest)
    goZeroTime

/-- CookieStore.Save, modulo serialization and disk I/O: the
StoredCookies value it writes, with CapturedAt = time.Now(). -/
def save (cookies : List Cookie) (now : Int) : StoredCookies :=
  { cookies := cookies, capturedAt := now, expiresAt := earliestAuthExpiry cookies }

/-- The required-cookie scan in CookieStore.IsValid: the loop setting
hasAuthToken / hasCT0 marks a name present when any cookie carries it. -/
def hasCookieNamed (n : String) (cs : List Cookie) : Bool :=
  cs.any (fun c => c.name == n)

/-- CookieStore.IsValid on an already-loaded store; none models a Load
failure (missing or corrupt file), which IsValid maps to false.
time.Now().After(ExpiresAt) is a strict comparison, so the expiry check
rejects exactly when expiresAt < now. -/
def isValid (loaded : Option StoredCookies) (now : Int) : Bool :=
  match loaded with
  | none => false
  | some stored =>
    if stored.expiresAt < now then false
    else hasCookieNamed "auth_token" stored.cookies && hasCookieNamed "ct0" stored.cookies

/-- The claim's reading of validity (spec section 3, claim C1): both
required cookies present with non-empty values and the stored expiration
strictly in the future. -/
def specBundleValid (loaded : Option StoredCookies) (now : Int) : Bool :=
  match loaded with
  | none => false
  | some stored =>
    stored.cookies.any (fun c => c.name == "auth_token" && !(c.value == "")) &&
    stored.cookies.any (fun c => c.name == "ct0" && !(c.value == "")) &&
    decide (now < stored.expiresAt)

/-- CookieStore.GetXCookies' accumulation loop (cookies.go lines
126-131): appends exactly the cookies whose Domain equals ".x.com" or
"x.com". -/
def getXCookies (stored : StoredCookies) : List Cookie :=
  stored.cookies.foldl
    (fun acc c => if c.domain = ".x.com" ∨ c.domain = "x.com" then acc ++ [c] else acc)
    []

/-- Digit-string accumulation, as performed by a decimal parser. -/
def digitsVal (ds : List Char) : Nat :=
  ds.foldl (fun n c => n * 10 + (c.toNat - 48)) 0

/-- Decimal core of strconv.ParseFloat: digits with an optional single
fractional part.  Exponents, hex floats, underscores, inf and nan fall
outside the modelled subset and parse to none; every input parseMetric is
claimed on lies in the decimal subset, where this agrees with Go. -/
def parseDecimalCore (cs : List Char) : Option ℚ :=
  let ip := cs.takeWhile Char.isDigit
  match cs.dropWhile Char.isDigit with
  | [] => if ip.isEmpty then none else some ((digitsVal ip : ℚ))
  | '.' :: frac =>
    if frac.all Char.isDigit && (!ip.isEmpty || !frac.isEmpty) then
      some ((digitsVal ip : ℚ) + (digitsVal frac : ℚ) / (10 : ℚ) ^ frac.length)
    else none
  | _ => none

/-- Sign handling of strconv.ParseFloat over the decimal core. -/
def parseDecimal (cs : List Char) : Option ℚ :=
  match cs with
  | '+' :: t => parseDecimalCore t
  | '-' :: t => Option.map Neg.neg (parseDecimalCore t)
  | _ => parseDecimalCore cs

/-- Go's int(float) conversion: truncation toward zero. -/
def ratTrunc (q : ℚ) : Int :=
  if q < 0 then -(Int.floor (-q)) else Int.floor q

/-- Go's strings.TrimSpace over the character list (leading and trailing
whitespace removed). -/
def goTrimSpace (cs : List Char) : List Char :=
  ((cs.dropWhile Char.isWhitespace).reverse.dropWhile Char.isWhitespace).reverse

/-- Go's strings.ToUpper over the character list. -/
def goToUpper (cs : List Char) : List Char :=
  cs.map Char.toUpper

/-- Go's strings.HasSuffix over character lists. -/
def goHasSuffix (cs suffix : List Char) : Bool :=
  suffix.isSuffixOf cs

/-- parseMetric (scraper.go lines 616-642): empty input yields 0; after
trimming spaces and removing the comma thousands separators, a trailing K
or M (case-insensitive) selects a multiplier of 10^3 or 10^6 and is
stripped; the remainder is parsed as a float, with parse failure yielding
0, and the scaled value is truncated to an integer. -/
def parseMetric (s : String) : Int :=
  if s = "" then 0
  else
    let cs := (goTrimSpace s.toList).filter (fun c => c ≠ ',')
    let km : ℚ × List Char :=
      if goHasSuffix (goToUpper cs) ['K'] then (1000, cs.dropLast)
      else if goHasSuffix (goToUpper cs) ['M'] then (1000000, cs.dropLast)
      else (1, cs)
    match parseDecimal km.2 with
    | none => 0
    | some v => ratTrunc (v * km.1)

/-- The claim's suffix test on credential domains (spec:
ScopedCredentials(domainSuffix) returns the credentials whose domain
matches the given suffix). -/
def domainEndsWith (domain suffix : String) : Bool :=
  suffix.toList.isSuffixOf domain.toList

/-- types.Post (internal/types/types.go); time.Time fields are Unix
seconds. -/
structure Post where
  id : String
  authorHandle : String
  authorName : String
  content : String
  mediaURLs : List String
  timestamp : Int
  likes : Int
  retweets : Int
  replies : Int
  quoteTweets : Int
  isRetweet : Bool
  isQuoteTweet : Bool
  isReply : Bool
  originalURL : String
  scrapedAt : Int
deriving Repr, DecidableEq

/-- A post with only its identifier set, for concrete instances. -/
def mkPost (i : String) : Post :=
  ⟨i, "", "", "", [], 0, 0, 0, 0, 0, false, false, false, "", 0⟩

/-- The inner per-pass loop of scrollAndCollect (scraper.go lines
58-68): walk the freshly extracted candidates, append each post whose ID
is unseen, marking it seen, and stop the pass as soon as the accumulator
reaches maxCount (the check runs right after each append).  The
map[string]bool seen set is modelled as a list of IDs. -/
def addCandidates (maxCount : Nat) : List Post → List String → List Post → List Post × List String
  | [], seen, posts => (posts, seen)
  | p :: rest, seen, posts =>
    if seen.contains p.id then addCandidates maxCount rest seen posts
    else
      if maxCount ≤ posts.length + 1 then (posts ++ [p], p.id :: seen)
      else addCandidates maxCount rest (p.id :: seen) (posts ++ [p])

/-- The outer loop of scrollAndCollect (scraper.go lines 51-86), with
the logging and the randomized sleeps dropped and a browser scroll
failure absorbed into the next pass's extractor error (both abort the
call returning only the error).  The extractor is indexed by the attempt
number; the result carries the collected posts together with the number
of extraction passes performed. -/
def scrollLoop (extractor : Nat → Except String (List Post)) (maxCount : Nat) :
    Nat → Nat → List String → List Post → Except String (List Post × Nat)
  | 0, attempt, _, posts => Except.ok (posts, attempt)
  | remaining + 1, attempt, seen, posts =>
    match extractor attempt with
    | Except.error e => Except.error e
    | Except.ok newPosts =>
      if maxCount ≤ (addCandidates maxCount newPosts seen posts).1.length then
        Except.ok ((addCandidates maxCount newPosts seen posts).1, attempt + 1)
      else
        scrollLoop extractor maxCount remaining (attempt + 1)
          (addCandidates maxCount newPosts seen posts).2
          (addCandidates maxCount newPosts seen posts).1

/-- scrollAndCollect (scraper.go lines 47-89): run the scroll loop from
an empty accumulator and empty seen set for maxScrollAttempts passes. -/
def scrollAndCollect (extractor : Nat → Except String (List Post))
    (maxCount maxScrollAttempts : Nat) : Except String (List Post × Nat) :=
  scrollLoop extractor maxCount maxScrollAttempts 0 [] []

/-- extractPosts (scraper.go lines 166-181): scroll-collect with
maxCount = count and maxScrollAttempts = count / 5. -/
def extractPosts (extractor : Nat → Except String (List Post)) (count : Nat) :
    Except String (List Post × Nat) :=
  scrollAndCollect extractor count (count / 5)

/-- types.Analysis (internal/types/types.go); the float64 relevance
score is modelled as ℚ. -/
structure Analysis where
  postID : String
  relevanceScore : ℚ
  topics : List String
  summary : String
  needsContext : Bool
  analyzedAt : Int
deriving Repr, DecidableEq

/-- An analysis with only its post ID and score set. -/
def mkAnalysis (pid : String) (score : ℚ) : Analysis :=
  ⟨pid, score, [], "", false, 0⟩

/-- The contiguous batching of AnalyzePosts (analyzer.go lines 61-65):
posts[i : min(i+batchSize, len)] for i = 0, batchSize, 2*batchSize, ...
Meaningful for batchSize ≥ 1 (Go panics on a zero batch size when
computing numBatches). -/
def chunkBatches (batchSize : Nat) : List Post → List (List Post)
  | [] => []
  | p :: rest =>
    (p :: rest.take (batchSize - 1)) :: chunkBatches batchSize (rest.drop (batchSize - 1))
termination_by l => l.length
decreasing_by
  simp only [List.length_drop, List.length_cons]
  omega

/-- The error wrapping in AnalyzePosts' per-batch goroutine
(analyzer.go line 70). -/
def wrapBatchErr (batchIdx : Nat) (e : String) : String :=
  "failed to analyze batch " ++ toString batchIdx ++ ": " ++ e

/-- The errgroup semantics of AnalyzePosts: goroutines complete in some
order (a list of batch indices); g.Wait() reports the error of the first
completing goroutine that failed, or none when every batch succeeded. -/
def firstBatchError (provider : List Post → Except String (List Analysis))
    (bs : List (List Post)) : List Nat → Option (Nat × String)
  | [] => none
  | i :: rest =>
    match bs.get? i with
    | none => firstBatchError provider bs rest
    | some b =>
      match provider b with
      | Except.error e => some (i, e)
      | Except.ok _ => firstBatchError provider bs rest

/-- The per-batch result slot (results[batchIdx] in analyzer.go line
72); only read when no batch failed, in which case the provider call for
each batch succeeded. -/
def batchSlot (provider : List Post → Except String (List Analysis))
    (b : List Post) : List Analysis :=
  match provider b with
  | Except.ok as => as
  | Except.error _ => []

/-- AnalyzePosts (analyzer.go lines 47-89) under a given goroutine
completion order: empty input returns ok [] without calling the
provider; otherwise, if some batch failed, the call fails with the first
completing batch's error wrapped with its index; otherwise the per-batch
slots are flattened in original batch-index order. -/
def analyzePosts (provider : List Post → Except String (List Analysis))
    (batchSize : Nat) (posts : List Post) (order : List Nat) :
    Except String (List Analysis) :=
  if posts.isEmpty then Except.ok []
  else
    match firstBatchError provider (chunkBatches batchSize posts) order with
    | some ie => Except.error (wrapBatchErr ie.1 ie.2)
    | none => Except.ok ((chunkBatches batchSize posts).map (batchSlot provider)).flatten

/-- Sequential dispatch over the batch list, stopping at the first
failing batch, used by the sequential reference below. -/
def seqGo (provider : List Post → Except String (List Analysis)) (i : Nat) :
    List (List Post) → Except String (List Analysis)
  | [] => Except.ok []
  | b :: rest =>
    match provider b with
    | Except.error e => Except.error (wrapBatchErr i e)
    | Except.ok as =>
      match seqGo provider (i + 1) rest with
      | Except.error e => Except.error e
      | Except.ok tailRes => Except.ok (as ++ tailRes)

/-- Modelled from the spec: the sequential reference implementation of
claim C3, dispatching the contiguous batches (of the configured batch
size, last batch possibly smaller) one after another and concatenating
the per-batch results in batch order. -/
def analyzePostsSeq (provider : List Post → Except String (List Analysis))
    (batchSize : Nat) (posts : List Post) : Except String (List Analysis) :=
  if posts.isEmpty then Except.ok []
  else seqGo provider 0 (chunkBatches batchSize posts)

/-- types.PostWithAnalysis (internal/types/types.go); GenerateDigest
constructs it with the matched analysis and no context. -/
structure PostWithAnalysis where
  post : Post
  analysis : Analysis
  context : List Post
deriving Repr, DecidableEq

/-- The analysisMap construction plus lookup of GenerateDigest (app.go
lines 136-139): the Go map is keyed by PostID with later entries
overwriting earlier ones, so a lookup returns the last analysis whose
PostID matches. -/
def lookupAnalysis (analyses : List Analysis) (pid : String) : Option Analysis :=
  analyses.foldl (fun acc a => if a.postID = pid then some a else acc) none

/-- The relevance filter of GenerateDigest (app.go lines 141-153): keep
each post whose looked-up analysis exists and scores at least the
threshold, in post order; posts with no matching analysis are skipped. -/
def filterRelevant (analyses : List Analysis) (threshold : ℚ) :
    List Post → List PostWithAnalysis
  | [] => []
  | post :: rest =>
    match lookupAnalysis analyses post.id with
    | none => filterRelevant analyses threshold rest
    | some a =>
      if threshold ≤ a.relevanceScore then
        ⟨post, a, []⟩ :: filterRelevant analyses threshold rest
      else filterRelevant analyses threshold rest

/-- A concrete extractor for witnesses: every pass shows the posts a, a, b. -/
def exSample : Nat → Except String (List Post) :=
  fun _ => Except.ok [mkPost "a", mkPost "a", mkPost "b"]

/-- A concrete provider for witnesses that fails on any batch holding the
post with ID bad. -/
def failingProvider : List Post → Except String (List Analysis) :=
  fun b => if b.any (fun p => p.id == "bad") then Except.error "boom" else Except.ok []

/-- A concrete provider for witnesses that scores every post 1. -/
def okProvider : List Post → Except String (List Analysis) :=
  fun b => Except.ok (b.map (fun p => mkAnalysis p.id 1))

/-- Concrete posts for the filter-threshold witness. -/
def postsEx : List Post := [mkPost "1", mkPost "2", mkPost "3", mkPost "4"]

/-- Concrete analyses with scores 0.4, 0.6, 0.6, 0.9 for the
filter-threshold witness. -/
def analysesEx : List Analysis :=
  [mkAnalysis "1" 0.4, mkAnalysis "2" 0.6, mkAnalysis "3" 0.6, mkAnalysis "4" 0.9]

/-! Theorems. -/

/-- The IsValid expiry check accepts exactly when now ≤ expiresAt, and the
required-cookie scan succeeds exactly when both names occur. -/
theorem isValid_some_iff (stored : StoredCookies) (now : Int) :
    isValid (some stored) now = true ↔
      (∃ c ∈ stored.cookies, c.name = "auth_token")
      ∧ (∃ c ∈ stored.cookies, c.name = "ct0")
      ∧ now ≤ stored.expiresAt := by
  simp only [isValid]
  by_cases h : stored.expiresAt < now
  · rw [if_pos h]
    constructor
    · intro hc
      exact absurd hc (by simp)
    · rintro ⟨-, -, hle⟩
      omega
  · rw [if_neg h, Bool.and_eq_true]
    simp only [hasCookieNamed, List.any_eq_true, beq_iff_eq]
    constructor
    · rintro ⟨h1, h2⟩
      exact ⟨h1, h2, by omega⟩
    · rintro ⟨h1, h2, -⟩
      exact ⟨h1, h2⟩

/-- C1 fails as stated: IsValid never inspects cookie values, and the
expiry check is a strict After, so a bundle whose auth_token and ct0 both
carry empty values validates, and so does a bundle whose stored
expiration equals the current instant, while the claimed condition
(non-empty values, expiration strictly in the future) rejects both. -/
theorem c1_cex :
    isValid (some (save [⟨"auth_token", "", "x.com", 100⟩, ⟨"ct0", "", "x.com", 100⟩] 0)) 50
        = true
    ∧ specBundleValid
        (some (save [⟨"auth_token", "", "x.com", 100⟩, ⟨"ct0", "", "x.com", 100⟩] 0)) 50
        = false
    ∧ isValid
        (some (save [⟨"auth_token", "tok", "x.com", 100⟩, ⟨"ct0", "c0", "x.com", 100⟩] 0)) 100
        = true
    ∧ specBundleValid
        (some (save [⟨"auth_token", "tok", "x.com", 100⟩, ⟨"ct0", "c0", "x.com", 100⟩] 0)) 100
        = false := by
  decide

/-- C1 (amended): CookieStore.IsValid returns true iff the load succeeds,
some cookie is named auth_token, some cookie is named ct0 (values are not
inspected), and the current time is not strictly after the stored
effective expiration; on a bundle saved with both credentials, an
expiration 1 second in the past yields false, 1 second in the future
yields true, and a bundle with auth_token but no ct0 yields false. -/
theorem c1_isValid_amended :
    (∀ (loaded : Option StoredCookies) (now : Int),
      isValid loaded now = true ↔
        ∃ stored, loaded = some stored
          ∧ (∃ c ∈ stored.cookies, c.name = "auth_token")
          ∧ (∃ c ∈ stored.cookies, c.name = "ct0")
          ∧ now ≤ stored.expiresAt)
    ∧ isValid
        (some (save [⟨"auth_token", "tok", "x.com", 999⟩, ⟨"ct0", "c0", "x.com", 999⟩] 0)) 1000
        = false
    ∧ isValid
        (some (save [⟨"auth_token", "tok", "x.com", 1001⟩, ⟨"ct0", "c0", "x.com", 1001⟩] 0)) 1000
        = true
    ∧ isValid (some (save [⟨"auth_token", "tok", "x.com", 1001⟩] 0)) 1000 = false := by
  refine ⟨fun loaded now => ?_, by decide, by decide, by decide⟩
  cases loaded with
  | none =>
    simp [isValid]
  | some stored =>
    rw [isValid_some_iff]
    constructor
    · rintro ⟨h1, h2, h3⟩
      exact ⟨stored, rfl, h1, h2, h3⟩
    · rintro ⟨s, hs, h1, h2, h3⟩
      cases hs
      exact ⟨h1, h2, h3⟩

/-- Accumulator form of the Save expiry fold when no cookie is named
auth_token or ct0: the fold never updates its accumulator. -/
theorem earliestAuthExpiry_fold_const (cookies : List Cookie)
    (h : ∀ c ∈ cookies, c.name ≠ "auth_token" ∧ c.name ≠ "ct0") :
    ∀ acc : Int,
      cookies.foldl
        (fun earliest c =>
          if c.name = "auth_token" ∨ c.name = "ct0" then
            if earliest = goZeroTime ∨ c.expires < earliest then c.expires else earliest
          else earliest)
        acc = acc := by
  induction cookies with
  | nil => intro acc; rfl
  | cons c l ih =>
    intro acc
    have hc := h c (by simp)
    rw [List.foldl_cons, if_neg (by tauto)]
    exact ih (fun x hx => h x (by simp [hx])) acc

/-- C10: saving a cookie list holding neither an auth_token nor a ct0
credential stores the zero time as the effective expiration, and every
subsequent IsValid call on the stored bundle returns false. -/
theorem c10_saveWithoutAuth (cookies : List Cookie) (t : Int)
    (h : ∀ c ∈ cookies, c.name ≠ "auth_token" ∧ c.name ≠ "ct0") :
    (save cookies t).expiresAt = goZeroTime
    ∧ ∀ now : Int, isValid (some (save cookies t)) now = false := by
  constructor
  · exact earliestAuthExpiry_fold_const cookies h goZeroTime
  · intro now
    have hno : hasCookieNamed "auth_token" cookies = false := by
      simp only [hasCookieNamed, List.any_eq_false, beq_iff_eq]
      exact fun c hc => (h c hc).1
    simp only [isValid, save]
    split
    · rfl
    · rw [hno, Bool.false_and]

/-- Witness for C10 at a concrete bundle with a single unrelated cookie. -/
theorem c10_witness :
    (save [⟨"foo", "v", "x.com", 100⟩] 5).expiresAt = goZeroTime
    ∧ ∀ now : Int, isValid (some (save [⟨"foo", "v", "x.com", 100⟩] 5)) now = false :=
  c10_saveWithoutAuth [⟨"foo", "v", "x.com", 100⟩] 5 (by decide)

/-- C7: parseMetric on the claimed inputs: thousands separators are
removed, K and M select multipliers 10^3 and 10^6, and empty or
unparseable input yields 0. -/
theorem c7_parseMetric :
    parseMetric "1,234" = 1234
    ∧ parseMetric "1.2K" = 1200
    ∧ parseMetric "5.7M" = 5700000
    ∧ parseMetric "" = 0
    ∧ parseMetric "garbage" = 0 := by
  refine ⟨?_, ?_, ?_, rfl, rfl⟩
  · have h : parseMetric "1,234"
        = ratTrunc ((digitsVal ['1', '2', '3', '4'] : ℚ) * 1) := rfl
    rw [h, show digitsVal ['1', '2', '3', '4'] = 1234 from by decide]
    norm_num [ratTrunc]
  · have h : parseMetric "1.2K"
        = ratTrunc (((digitsVal ['1'] : ℚ)
            + (digitsVal ['2'] : ℚ) / (10 : ℚ) ^ (1 : ℕ)) * 1000) := rfl
    rw [h, show digitsVal ['1'] = 1 from by decide,
      show digitsVal ['2'] = 2 from by decide]
    norm_num [ratTrunc]
  · have h : parseMetric "5.7M"
        = ratTrunc (((digitsVal ['5'] : ℚ)
            + (digitsVal ['7'] : ℚ) / (10 : ℚ) ^ (1 : ℕ)) * 1000000) := rfl
    rw [h, show digitsVal ['5'] = 5 from by decide,
      show digitsVal ['7'] = 7 from by decide]
    norm_num [ratTrunc]

/-- The GetXCookies accumulation loop is a filter on the exact-domain
test, for any starting accumulator. -/
theorem getXCookies_fold_filter (l : List Cookie) :
    ∀ acc : List Cookie,
      l.foldl
        (fun acc c => if c.domain = ".x.com" ∨ c.domain = "x.com" then acc ++ [c] else acc)
        acc
      = acc ++ l.filter (fun c => c.domain == ".x.com" || c.domain == "x.com") := by
  induction l with
  | nil => intro acc; simp
  | cons c l ih =>
    intro acc
    rw [List.foldl_cons, List.filter_cons]
    by_cases h : c.domain = ".x.com" ∨ c.domain = "x.com"
    · have hb : (c.domain == ".x.com" || c.domain == "x.com") = true := by
        simpa only [Bool.or_eq_true, beq_iff_eq] using h
      rw [if_pos h, hb, ih]
      simp
    · have hb : (c.domain == ".x.com" || c.domain == "x.com") = false := by
        simp only [Bool.or_eq_false_iff, beq_eq_false_iff_ne, ne_eq]
        tauto
      rw [if_neg h, hb, ih]
      simp

/-- C8 fails as stated: GetXCookies compares domains for equality with
".x.com" and "x.com" rather than by suffix, so a cookie on api.x.com —
whose domain ends with both ".x.com" and "x.com" — is not returned, while
the suffix reading of the claim includes it (and under the suffix
".x.com" the returned domain "x.com" would itself not match). -/
theorem c8_cex :
    getXCookies ⟨[⟨"auth_token", "v", "api.x.com", 100⟩], 0, 100⟩ = []
    ∧ domainEndsWith "api.x.com" ".x.com" = true
    ∧ domainEndsWith "api.x.com" "x.com" = true
    ∧ getXCookies ⟨[⟨"ct0", "v", "x.com", 100⟩], 0, 100⟩ = [⟨"ct0", "v", "x.com", 100⟩]
    ∧ domainEndsWith "x.com" ".x.com" = false := by
  decide

/-- C8 (amended): GetXCookies returns exactly those stored credentials
whose domain is literally ".x.com" or "x.com" — every credential with one
of those two domains is included, in stored order, and no credential with
any other domain (including other x.com subdomains) is returned. -/
theorem c8_scopedCookies_amended (stored : StoredCookies) :
    getXCookies stored
        = stored.cookies.filter (fun c => c.domain == ".x.com" || c.domain == "x.com")
    ∧ ∀ c : Cookie, c ∈ getXCookies stored ↔
        c ∈ stored.cookies ∧ (c.domain = ".x.com" ∨ c.domain = "x.com") := by
  have hf := getXCookies_fold_filter stored.cookies []
  constructor
  · simpa [getXCookies] using hf
  · intro c
    rw [getXCookies, hf]
    simp [List.mem_filter]


/-- Unfolding equation of addCandidates on a non-empty candidate list. -/
theorem addCandidates_cons (maxCount : Nat) (p : Post) (rest : List Post)
    (seen : List String) (posts : List Post) :
    addCandidates maxCount (p :: rest) seen posts
      = if seen.contains p.id = true then addCandidates maxCount rest seen posts
        else if maxCount ≤ posts.length + 1 then (posts ++ [p], p.id :: seen)
        else addCandidates maxCount rest (p.id :: seen) (posts ++ [p]) := rfl

/-- Unfolding equation of scrollLoop with remaining attempts. -/
theorem scrollLoop_succ (extractor : Nat → Except String (List Post))
    (maxCount remaining attempt : Nat) (seen : List String) (posts : List Post) :
    scrollLoop extractor maxCount (remaining + 1) attempt seen posts
      = match extractor attempt with
        | Except.error e => Except.error e
        | Except.ok newPosts =>
          if maxCount ≤ (addCandidates maxCount newPosts seen posts).1.length then
            Except.ok ((addCandidates maxCount newPosts seen posts).1, attempt + 1)
          else
            scrollLoop extractor maxCount remaining (attempt + 1)
              (addCandidates maxCount newPosts seen posts).2
              (addCandidates maxCount newPosts seen posts).1 := rfl

/-- Invariant of the per-pass candidate walk: when the accumulated posts
have pairwise-distinct IDs all recorded in the seen set, so does the
output, whose IDs are all recorded in the output seen set. -/
theorem addCandidates_sound (maxCount : Nat) :
    ∀ (cands : List Post) (seen : List String) (posts : List Post),
      (posts.map Post.id).Nodup → (∀ p ∈ posts, p.id ∈ seen) →
      ((addCandidates maxCount cands seen posts).1.map Post.id).Nodup
        ∧ ∀ p ∈ (addCandidates maxCount cands seen posts).1,
            p.id ∈ (addCandidates maxCount cands seen posts).2 := by
  intro cands
  induction cands with
  | nil =>
    intro seen posts h1 h2
    exact ⟨h1, h2⟩
  | cons p rest ih =>
    intro seen posts h1 h2
    rw [addCandidates_cons]
    by_cases hs : seen.contains p.id = true
    · rw [if_pos hs]
      exact ih seen posts h1 h2
    · rw [if_neg hs]
      have hs2 : p.id ∉ seen := by
        simpa using hs
      have hnotin : p.id ∉ posts.map Post.id := by
        intro hmem
        obtain ⟨q, hq, hqid⟩ := List.mem_map.mp hmem
        exact hs2 (hqid ▸ h2 q hq)
      have hnd : ((posts ++ [p]).map Post.id).Nodup := by
        simp only [List.map_append, List.map_cons, List.map_nil, List.nodup_append,
          List.nodup_singleton, true_and, List.disjoint_singleton]
        exact ⟨h1, hnotin⟩
      have hsub : ∀ q ∈ posts ++ [p], q.id ∈ p.id :: seen := by
        intro q hq
        rcases List.mem_append.mp hq with hq2 | hq2
        · exact List.mem_cons_of_mem _ (h2 q hq2)
        · simp only [List.mem_singleton] at hq2
          subst hq2
          exact List.mem_cons_self _ _
      by_cases hm : maxCount ≤ posts.length + 1
      · rw [if_pos hm]
        exact ⟨hnd, hsub⟩
      · rw [if_neg hm]
        exact ih _ _ hnd hsub

/-- Every successful scroll loop preserves the distinct-ID invariant of
its accumulator. -/
theorem scrollLoop_ok_nodup (extractor : Nat → Except String (List Post)) (maxCount : Nat) :
    ∀ (remaining attempt : Nat) (seen : List String) (posts : List Post)
      (r : List Post × Nat),
      (posts.map Post.id).Nodup → (∀ p ∈ posts, p.id ∈ seen) →
      scrollLoop extractor maxCount remaining attempt seen posts = Except.ok r →
      (r.1.map Post.id).Nodup := by
  intro remaining
  induction remaining with
  | zero =>
    intro attempt seen posts r h1 h2 h
    injection h with h
    subst h
    exact h1
  | succ n ih =>
    intro attempt seen posts r h1 h2 h
    rw [scrollLoop_succ] at h
    split at h
    · exact absurd h (by simp)
    · rename_i newPosts heq
      obtain ⟨hnd, hsub⟩ := addCandidates_sound maxCount newPosts seen posts h1 h2
      split at h
      · injection h with h
        subst h
        exact hnd
      · exact ih (attempt + 1) _ _ r hnd hsub h

/-- C4: for every extractor behaviour (every sequence of scroll passes),
every maxCount and every attempt ceiling, a successful scrollAndCollect
run returns an accumulator whose post IDs are pairwise distinct, no
matter how often an ID reappears within or across passes. -/
theorem c4_dedupInvariant (extractor : Nat → Except String (List Post))
    (maxCount maxScrollAttempts : Nat) (r : List Post × Nat)
    (h : scrollAndCollect extractor maxCount maxScrollAttempts = Except.ok r) :
    (r.1.map Post.id).Nodup :=
  scrollLoop_ok_nodup extractor maxCount maxScrollAttempts 0 [] [] r (by simp)
    (by simp) h

/-- Witness for C4: an extractor that repeats the ID a within one pass
and across passes still yields the deduplicated accumulator [a, b]. -/
theorem c4_witness :
    scrollAndCollect exSample 10 2 = Except.ok ([mkPost "a", mkPost "b"], 2)
    ∧ ((([mkPost "a", mkPost "b"], 2) : List Post × Nat).1.map Post.id).Nodup :=
  ⟨rfl, c4_dedupInvariant exSample 10 2 ([mkPost "a", mkPost "b"], 2) rfl⟩

/-- The per-pass walk cannot push the accumulator past maxCount when it
starts strictly below it: the early stop fires right after the append
that reaches maxCount. -/
theorem addCandidates_len_le (maxCount : Nat) :
    ∀ (cands : List Post) (seen : List String) (posts : List Post),
      posts.length < maxCount →
      (addCandidates maxCount cands seen posts).1.length ≤ maxCount := by
  intro cands
  induction cands with
  | nil =>
    intro seen posts h
    exact Nat.le_of_lt h
  | cons p rest ih =>
    intro seen posts h
    rw [addCandidates_cons]
    by_cases hs : seen.contains p.id = true
    · rw [if_pos hs]
      exact ih seen posts h
    · rw [if_neg hs]
      by_cases hm : maxCount ≤ posts.length + 1
      · rw [if_pos hm]
        simpa using h
      · rw [if_neg hm]
        exact ih _ _ (by simp; omega)

/-- A successful scroll loop that starts strictly below maxCount ends at
or below maxCount, and ends below maxCount only by running out of
attempts, having performed every remaining pass. -/
theorem scrollLoop_len (extractor : Nat → Except String (List Post)) (maxCount : Nat) :
    ∀ (remaining attempt : Nat) (seen : List String) (posts : List Post)
      (r : List Post × Nat),
      posts.length < maxCount →
      scrollLoop extractor maxCount remaining attempt seen posts = Except.ok r →
      r.1.length ≤ maxCount ∧ (r.1.length < maxCount → r.2 = attempt + remaining) := by
  intro remaining
  induction remaining with
  | zero =>
    intro attempt seen posts r h1 h
    injection h with h
    subst h
    exact ⟨Nat.le_of_lt h1, fun _ => rfl⟩
  | succ n ih =>
    intro attempt seen posts r h1 h
    rw [scrollLoop_succ] at h
    split at h
    · exact absurd h (by simp)
    · rename_i newPosts heq
      have hlen := addCandidates_len_le maxCount newPosts seen posts h1
      split at h
      · rename_i hm
        injection h with h
        subst h
        exact ⟨hlen, fun hlt => by dsimp only at hlt ⊢; omega⟩
      · rename_i hm
        have := ih (attempt + 1) _ _ r (by omega) h
        exact ⟨this.1, fun hlt => by rw [this.2 hlt]; omega⟩

/-- C5: for every extractor behaviour and every target count n, a
successful extractPosts run returns at most n posts, and returns fewer
than n only when all n / 5 scroll passes of the attempt ceiling were
performed. -/
theorem c5_boundedResult (extractor : Nat → Except String (List Post)) (n : Nat)
    (r : List Post × Nat) (h : extractPosts extractor n = Except.ok r) :
    r.1.length ≤ n ∧ (r.1.length < n → r.2 = n / 5) := by
  rcases Nat.eq_zero_or_pos n with rfl | hpos
  · have h0 : (Except.ok ([], 0) : Except String (List Post × Nat)) = Except.ok r := h
    injection h0 with h0
    rw [← h0]
    simp
  · have h2 : scrollLoop extractor n (n / 5) 0 [] [] = Except.ok r := h
    have := scrollLoop_len extractor n (n / 5) 0 [] [] r (by simpa using hpos) h2
    simpa using this

/-- Witness for C5 at n = 10 with an extractor showing two distinct
posts: the run returns 2 ≤ 10 posts after exhausting all 10 / 5 = 2
passes. -/
theorem c5_witness :
    (([mkPost "a", mkPost "b"], 2) : List Post × Nat).1.length ≤ 10
    ∧ ((([mkPost "a", mkPost "b"], 2) : List Post × Nat).1.length < 10 →
        (([mkPost "a", mkPost "b"], 2) : List Post × Nat).2 = 10 / 5) :=
  c5_boundedResult exSample 10 ([mkPost "a", mkPost "b"], 2) rfl

/-- C9: for every target count n with 1 ≤ n ≤ 4, extractPosts receives
the attempt ceiling n / 5 = 0, so it performs zero extraction passes and
returns an empty post list, for every extractor (which is never
invoked). -/
theorem c9_smallCountNoPasses (extractor : Nat → Except String (List Post)) (n : Nat)
    (h1 : 1 ≤ n) (h2 : n ≤ 4) :
    extractPosts extractor n = Except.ok ([], 0) := by
  have h5 : n / 5 = 0 := Nat.div_eq_of_lt (by omega)
  show scrollLoop extractor n (n / 5) 0 [] [] = Except.ok ([], 0)
  rw [h5]
  rfl

/-- Witness for C9 at n = 3: no pass runs, no post is returned. -/
theorem c9_witness :
    1 ≤ 3 ∧ 3 ≤ 4 ∧ extractPosts exSample 3 = Except.ok ([], 0) :=
  ⟨by decide, by decide, c9_smallCountNoPasses exSample 3 (by decide) (by decide)⟩

/-- Unfolding equation of firstBatchError on a non-empty completion
order. -/
theorem firstBatchError_cons (provider : List Post → Except String (List Analysis))
    (bs : List (List Post)) (i : Nat) (rest : List Nat) :
    firstBatchError provider bs (i :: rest)
      = match bs.get? i with
        | none => firstBatchError provider bs rest
        | some b =>
          match provider b with
          | Except.error e => some (i, e)
          | Except.ok _ => firstBatchError provider bs rest := rfl

/-- A reported first error names a batch index holding a batch on which
the provider really failed with that error. -/
theorem firstBatchError_some (provider : List Post → Except String (List Analysis))
    (bs : List (List Post)) :
    ∀ (order : List Nat) (p : Nat × String),
      firstBatchError provider bs order = some p →
      ∃ b, bs.get? p.1 = some b ∧ provider b = Except.error p.2 := by
  intro order
  induction order with
  | nil =>
    intro p h
    exact absurd h (by simp [firstBatchError])
  | cons i rest ih =>
    intro p h
    rw [firstBatchError_cons] at h
    split at h
    · exact ih p h
    · rename_i b hq
      split at h
      · rename_i e hpe
        injection h with h
        subst h
        exact ⟨b, hq, hpe⟩
      · exact ih p h

/-- When the completion order reaches a batch on which the provider
fails, firstBatchError reports some failure. -/
theorem firstBatchError_isSome (provider : List Post → Except String (List Analysis))
    (bs : List (List Post)) :
    ∀ (order : List Nat) (i : Nat) (b : List Post) (e : String),
      i ∈ order → bs.get? i = some b → provider b = Except.error e →
      ∃ p, firstBatchError provider bs order = some p := by
  intro order
  induction order with
  | nil =>
    intro i b e hi
    exact absurd hi (by simp)
  | cons j rest ih =>
    intro i b e hi hb he
    rw [firstBatchError_cons]
    cases hj : bs.get? j with
    | none =>
      have hir : i ∈ rest := by
        rcases List.mem_cons.mp hi with h | h
        · subst h
          rw [hb] at hj
          cases hj
        · exact h
      obtain ⟨p, hp⟩ := ih i b e hir hb he
      exact ⟨p, hp⟩
    | some bj =>
      cases hpj : provider bj with
      | error ej =>
        exact ⟨(j, ej), by simp only [hpj]⟩
      | ok as =>
        have hir : i ∈ rest := by
          rcases List.mem_cons.mp hi with h | h
          · subst h
            rw [hb] at hj
            injection hj with hj
            subst hj
            rw [he] at hpj
            cases hpj
          · exact h
        obtain ⟨p, hp⟩ := ih i b e hir hb he
        exact ⟨p, by simp only [hpj]; exact hp⟩

/-- When every batch succeeds, no completion order reports an error. -/
theorem firstBatchError_none (provider : List Post → Except String (List Analysis))
    (bs : List (List Post))
    (hok : ∀ b ∈ bs, ∃ as, provider b = Except.ok as) :
    ∀ order : List Nat, firstBatchError provider bs order = none := by
  intro order
  induction order with
  | nil => rfl
  | cons i rest ih =>
    rw [firstBatchError_cons]
    cases hj : bs.get? i with
    | none =>
      exact ih
    | some b =>
      obtain ⟨as, has⟩ := hok b (List.get?_mem hj)
      simp only [has]
      exact ih

/-- Unfolding of analyzePosts on a non-empty post list. -/
theorem analyzePosts_ne_empty (provider : List Post → Except String (List Analysis))
    (batchSize : Nat) (posts : List Post) (order : List Nat) (h : posts ≠ []) :
    analyzePosts provider batchSize posts order
      = match firstBatchError provider (chunkBatches batchSize posts) order with
        | some ie => Except.error (wrapBatchErr ie.1 ie.2)
        | none =>
          Except.ok ((chunkBatches batchSize posts).map (batchSlot provider)).flatten := by
  unfold analyzePosts
  rw [if_neg (by simp [h])]

/-- Sequential dispatch over all-succeeding batches returns the
flattened per-batch slots. -/
theorem seqGo_ok (provider : List Post → Except String (List Analysis)) :
    ∀ (bs : List (List Post)) (i : Nat),
      (∀ b ∈ bs, ∃ as, provider b = Except.ok as) →
      seqGo provider i bs = Except.ok (bs.map (batchSlot provider)).flatten := by
  intro bs
  induction bs with
  | nil =>
    intro i h
    rfl
  | cons b rest ih =>
    intro i h
    obtain ⟨as, has⟩ := h b (by simp)
    have hrest := ih (i + 1) (fun x hx => h x (by simp [hx]))
    show (match provider b with
      | Except.error e => Except.error (wrapBatchErr i e)
      | Except.ok as =>
        match seqGo provider (i + 1) rest with
        | Except.error e => Except.error e
        | Except.ok tailRes => Except.ok (as ++ tailRes)) = _
    rw [has, hrest]
    simp only [List.map_cons, List.flatten_cons, batchSlot, has]

/-- C2: for every non-empty post list, every batch size, every provider
behaviour and every goroutine completion order covering all batches, if
some batch's provider call fails then AnalyzePosts fails with the first
completing failure wrapped with its batch index — an Except.error value,
so no partial results are returned. -/
theorem c2_allOrNothing (provider : List Post → Except String (List Analysis))
    (batchSize : Nat) (posts : List Post) (order : List Nat)
    (_hbs : 1 ≤ batchSize) (hne : posts ≠ [])
    (hcover : ∀ i, i < (chunkBatches batchSize posts).length → i ∈ order)
    (hfail : ∃ b ∈ chunkBatches batchSize posts, ∃ e, provider b = Except.error e) :
    ∃ p : Nat × String,
      firstBatchError provider (chunkBatches batchSize posts) order = some p
      ∧ analyzePosts provider batchSize posts order
          = Except.error (wrapBatchErr p.1 p.2)
      ∧ ∃ b, (chunkBatches batchSize posts).get? p.1 = some b
          ∧ provider b = Except.error p.2 := by
  obtain ⟨b, hb, e, he⟩ := hfail
  obtain ⟨i, hi⟩ := List.get?_of_mem hb
  have hilen : i < (chunkBatches batchSize posts).length :=
    (List.get?_eq_some.mp hi).1
  obtain ⟨p, hp⟩ :=
    firstBatchError_isSome provider (chunkBatches batchSize posts) order i b e
      (hcover i hilen) hi he
  refine ⟨p, hp, ?_, firstBatchError_some provider (chunkBatches batchSize posts) order p hp⟩
  rw [analyzePosts_ne_empty provider batchSize posts order hne, hp]

/-- Witness for C2: batch size 1 over two posts where batch 1 fails;
under the completion order [1, 0] the call reports batch 1's failure. -/
theorem c2_witness :
    ∃ p : Nat × String,
      firstBatchError failingProvider (chunkBatches 1 [mkPost "x", mkPost "bad"]) [1, 0]
          = some p
      ∧ analyzePosts failingProvider 1 [mkPost "x", mkPost "bad"] [1, 0]
          = Except.error (wrapBatchErr p.1 p.2)
      ∧ ∃ b, (chunkBatches 1 [mkPost "x", mkPost "bad"]).get? p.1 = some b
          ∧ failingProvider b = Except.error p.2 :=
  c2_allOrNothing failingProvider 1 [mkPost "x", mkPost "bad"] [1, 0] (by decide)
    (by simp)
    (by
      intro i hi
      simp [chunkBatches] at hi
      interval_cases i <;> simp)
    ⟨[mkPost "bad"], by simp [chunkBatches], "boom", rfl⟩

/-- C3: for every provider behaviour on which all batches succeed, every
batch size, every post list and every goroutine completion order,
AnalyzePosts returns exactly the per-batch provider results flattened in
original batch-index order — a value independent of the completion order
— and agrees with the sequential reference dispatching the contiguous
batches one after another. -/
theorem c3_orderIndependent (provider : List Post → Except String (List Analysis))
    (batchSize : Nat) (posts : List Post) (order : List Nat)
    (_hbs : 1 ≤ batchSize)
    (hok : ∀ b ∈ chunkBatches batchSize posts, ∃ as, provider b = Except.ok as) :
    analyzePosts provider batchSize posts order
        = Except.ok ((chunkBatches batchSize posts).map (batchSlot provider)).flatten
    ∧ analyzePosts provider batchSize posts order
        = analyzePostsSeq provider batchSize posts := by
  have hnone := firstBatchError_none provider (chunkBatches batchSize posts) hok order
  by_cases hp : posts = []
  · subst hp
    constructor
    · simp [analyzePosts, chunkBatches]
    · simp [analyzePosts, analyzePostsSeq]
  · have h1 : analyzePosts provider batchSize posts order
        = Except.ok ((chunkBatches batchSize posts).map (batchSlot provider)).flatten := by
      rw [analyzePosts_ne_empty provider batchSize posts order hp, hnone]
    have h2 : analyzePostsSeq provider batchSize posts
        = Except.ok ((chunkBatches batchSize posts).map (batchSlot provider)).flatten := by
      unfold analyzePostsSeq
      rw [if_neg (by simp [hp])]
      exact seqGo_ok provider (chunkBatches batchSize posts) 0 hok
    exact ⟨h1, h1.trans h2.symm⟩

/-- Witness for C3: three posts in batches of 2 under the completion
order [1, 0] still yield the batch-order flattening and agree with the
sequential reference. -/
theorem c3_witness :
    analyzePosts okProvider 2 [mkPost "1", mkPost "2", mkPost "3"] [1, 0]
        = Except.ok
            ((chunkBatches 2 [mkPost "1", mkPost "2", mkPost "3"]).map
              (batchSlot okProvider)).flatten
    ∧ analyzePosts okProvider 2 [mkPost "1", mkPost "2", mkPost "3"] [1, 0]
        = analyzePostsSeq okProvider 2 [mkPost "1", mkPost "2", mkPost "3"] :=
  c3_orderIndependent okProvider 2 [mkPost "1", mkPost "2", mkPost "3"] [1, 0]
    (by decide) (fun b _ => ⟨_, rfl⟩)

/-- The map-then-lookup of GenerateDigest restricted to appending one
analysis: the appended entry overwrites any earlier entry with the same
PostID. -/
theorem lookupAnalysis_append (l : List Analysis) (b : Analysis) (pid : String) :
    lookupAnalysis (l ++ [b]) pid
      = if b.postID = pid then some b else lookupAnalysis l pid := by
  unfold lookupAnalysis
  rw [List.foldl_append]
  rfl

/-- A successful analysis lookup returns a stored analysis whose PostID
is the requested one. -/
theorem lookupAnalysis_mem (pid : String) :
    ∀ (l : List Analysis) (a : Analysis),
      lookupAnalysis l pid = some a → a ∈ l ∧ a.postID = pid := by
  intro l
  induction l using List.reverseRecOn with
  | nil =>
    intro a h
    exact absurd h (by simp [lookupAnalysis])
  | append_singleton l b ih =>
    intro a h
    rw [lookupAnalysis_append] at h
    by_cases hb : b.postID = pid
    · rw [if_pos hb] at h
      injection h with h
      subst h
      exact ⟨by simp, hb⟩
    · rw [if_neg hb] at h
      obtain ⟨hm, hp⟩ := ih a h
      exact ⟨by simp [hm], hp⟩

/-- A failed analysis lookup means no stored analysis carries the
requested PostID. -/
theorem lookupAnalysis_none (pid : String) :
    ∀ l : List Analysis, lookupAnalysis l pid = none → ∀ a ∈ l, a.postID ≠ pid := by
  intro l
  induction l using List.reverseRecOn with
  | nil =>
    intro _ a ha
    simp at ha
  | append_singleton l b ih =>
    intro h a ha
    rw [lookupAnalysis_append] at h
    by_cases hb : b.postID = pid
    · rw [if_pos hb] at h
      cases h
    · rw [if_neg hb] at h
      rcases List.mem_append.mp ha with h2 | h2
      · exact ih h a h2
      · simp only [List.mem_singleton] at h2
        subst h2
        exact hb

/-- With pairwise-distinct PostIDs, the lookup returns exactly the unique
matching analysis. -/
theorem lookupAnalysis_unique (pid : String) :
    ∀ (l : List Analysis) (a : Analysis),
      (l.map Analysis.postID).Nodup → a ∈ l → a.postID = pid →
      lookupAnalysis l pid = some a := by
  intro l
  induction l using List.reverseRecOn with
  | nil =>
    intro a _ ha
    simp at ha
  | append_singleton l b ih =>
    intro a hnd ha hpid
    have hnd2 : (l.map Analysis.postID).Nodup ∧ b.postID ∉ l.map Analysis.postID := by
      simpa [List.nodup_append] using hnd
    rw [lookupAnalysis_append]
    rcases List.mem_append.mp ha with h2 | h2
    · have hmap : a.postID ∈ l.map Analysis.postID := List.mem_map_of_mem _ h2
      have hb : b.postID ≠ pid := fun hbp => hnd2.2 (by rw [hbp, ← hpid]; exact hmap)
      rw [if_neg hb]
      exact ih a hnd2.1 h2 hpid
    · simp only [List.mem_singleton] at h2
      subst h2
      rw [if_pos hpid]

/-- C6: for every post list, analysis list with pairwise-distinct
PostIDs, and threshold, the relevance filter of GenerateDigest keeps a
post iff some analysis carries its identifier with a score at or above
the threshold (boundary included); posts with no matching analysis are
dropped, never defaulted to score zero. -/
theorem c6_filterThreshold (posts : List Post) (analyses : List Analysis)
    (threshold : ℚ) (hnd : (analyses.map Analysis.postID).Nodup) :
    (filterRelevant analyses threshold posts).map PostWithAnalysis.post
      = posts.filter
          (fun p => analyses.any
            (fun a => a.postID == p.id && decide (threshold ≤ a.relevanceScore))) := by
  induction posts with
  | nil => rfl
  | cons p rest ih =>
    rw [List.filter_cons]
    have e : filterRelevant analyses threshold (p :: rest)
        = match lookupAnalysis analyses p.id with
          | none => filterRelevant analyses threshold rest
          | some a =>
            if threshold ≤ a.relevanceScore then
              ⟨p, a, []⟩ :: filterRelevant analyses threshold rest
            else filterRelevant analyses threshold rest := rfl
    rw [e]
    cases hl : lookupAnalysis analyses p.id with
    | none =>
      have hnomatch :
          (analyses.any fun a => a.postID == p.id && decide (threshold ≤ a.relevanceScore))
            = false := by
        rw [List.any_eq_false]
        intro a ha
        have := lookupAnalysis_none p.id analyses hl a ha
        simp [this]
      rw [hnomatch, if_neg (by simp)]
      exact ih
    | some a =>
      dsimp only
      obtain ⟨hmem, hpid⟩ := lookupAnalysis_mem p.id analyses a hl
      by_cases hsc : threshold ≤ a.relevanceScore
      · rw [if_pos hsc]
        have hmatch :
            (analyses.any fun x => x.postID == p.id && decide (threshold ≤ x.relevanceScore))
              = true := by
          rw [List.any_eq_true]
          exact ⟨a, hmem, by simp [hpid, hsc]⟩
        rw [hmatch, if_pos rfl, List.map_cons, ih]
      · rw [if_neg hsc]
        have hnomatch :
            (analyses.any fun x => x.postID == p.id && decide (threshold ≤ x.relevanceScore))
              = false := by
          rw [List.any_eq_false]
          intro x hx
          by_cases hxp : x.postID = p.id
          · have hu := lookupAnalysis_unique p.id analyses x hnd hx hxp
            rw [hl] at hu
            injection hu with hu
            subst hu
            simp [hsc]
          · simp [hxp]
        rw [hnomatch, if_neg (by simp)]
        exact ih

/-- Witness for C6 on four posts scored 0.4, 0.6, 0.6, 0.9 against
threshold 0.6: the filter keeps exactly the three posts scoring at least
0.6, the boundary value included. -/
theorem c6_witness :
    (analysesEx.map Analysis.postID).Nodup
    ∧ (filterRelevant analysesEx 0.6 postsEx).map PostWithAnalysis.post
        = postsEx.filter
            (fun p => analysesEx.any
              (fun a => a.postID == p.id && decide ((0.6 : ℚ) ≤ a.relevanceScore)))
    ∧ (filterRelevant analysesEx 0.6 postsEx).map PostWithAnalysis.post
        = [mkPost "2", mkPost "3", mkPost "4"] :=
  ⟨by decide, c6_filterThreshold postsEx analysesEx 0.6 (by decide),
    (c6_filterThreshold postsEx analysesEx 0.6 (by decide)).trans (by
      have h1 : ¬((0.6 : ℚ) ≤ 0.4) := by norm_num
      have h2 : (0.6 : ℚ) ≤ 0.6 := by norm_num
      have h3 : (0.6 : ℚ) ≤ 0.9 := by norm_num
      simp [postsEx, analysesEx, mkPost, mkAnalysis, h1, h2, h3])⟩
